import Mathlib

/-!
Verification of the healthcare multi-agent resource-allocation model.

Shallow embedding of `src/resource_allocation_model.py`: hospitals,
patients, the coordinator's bid ranking, commit, replenishment and
rebalancing logic, message logs, and the per-step metrics.  Python float
arithmetic is modelled by exact rational arithmetic (`ℚ`); the
`random.randint` draw is modelled by an explicit draw parameter reduced
into the inclusive range.
-/

namespace MASHealthcare

/-- A hospital agent: identity, specialization tag, fixed initial capacity
and mutable current resource balance. -/
structure Hospital where
  unique_id : Nat
  specialization : String
  initial_resources : ℚ
  current_resources : ℚ
  deriving Repr, DecidableEq

instance : Inhabited Hospital := ⟨⟨0, "", 0, 0⟩⟩

/-- A patient agent: identity, severity tag, current generated demand and
unmet demand from the most recent allocation attempt. -/
structure Patient where
  unique_id : Nat
  severity : String
  medical_needs : ℚ
  unmet_needs : ℚ
  deriving Repr, DecidableEq

/-- Sender/recipient field of a message (`"BROADCAST"` is the broadcast
sentinel used by the coordinator). -/
inductive AgentRef where
  | hospital (uid : Nat)
  | patient (uid : Nat)
  | coordinator
  | broadcast
  deriving Repr, DecidableEq

/-- The `message_type` tags appearing in the source. -/
inductive MessageType where
  | MEDICAL_NEEDS
  | ADMISSION_BID
  | RESOURCE_UNAVAILABLE
  | RESOURCE_ALLOCATION
  | ALLOCATION_RESULT
  | RESOURCE_ALLOCATED
  | RESOURCE_TRANSFER
  deriving Repr, DecidableEq

/-- The content payloads the source puts into messages. -/
inductive MsgContent where
  | medicalNeeds (needs : ℚ) (patient_severity : String)
  | admissionBid (patient_id : Nat) (required_resources : ℚ)
      (hospital_specialization : String)
  | unavailableText (patient_id : Nat)
  | resourceAllocation (patient_id : Nat) (required_resources : ℚ)
      (bid_value : ℚ)
  | allocationResult (allocation_status : Bool) (hospital_id : Nat)
  | resourceAllocated (allocated_resources : ℚ) (hospital_id : Nat)
  | resourceTransfer (transfer_amount : ℚ) (source_hospital : Nat)
      (target_hospital : Nat)
  deriving Repr, DecidableEq

/-- A communication message between agents (class `Message`). -/
structure Message where
  sender : AgentRef
  recipient : AgentRef
  content : MsgContent
  message_type : MessageType
  deriving Repr, DecidableEq

/-- `MessageManager.send_message`: append a message to a log. -/
def send_message (log : List Message) (m : Message) : List Message :=
  log ++ [m]

/-- `MessageManager.get_messages_for_agent`: linear filter by recipient. -/
def get_messages_for_agent (log : List Message) (a : AgentRef) :
    List Message :=
  log.filter (fun m => m.recipient = a)

/-! ## Hospital agent -/

/-- Admission-policy weight `specialization_weight`
(`develop_admission_policy`). -/
def specialization_weight : ℚ := 0.4

/-- Admission-policy weight `resource_efficiency_weight`
(`develop_admission_policy`). -/
def resource_efficiency_weight : ℚ := 0.6

/-- `HospitalAgent.matches_specialization`: placeholder compatibility
check, always `true`. -/
def matches_specialization (_h : Hospital) (_p : Patient) : Bool := true

/-- `HospitalAgent.calculate_admission_score`. -/
def calculate_admission_score (h : Hospital) (p : Patient)
    (required_resources : ℚ) : ℚ :=
  let specialization_match : ℚ := if matches_specialization h p then 1.0 else 0.3
  let resource_efficiency : ℚ := 1 - required_resources / h.current_resources
  specialization_weight * specialization_match +
    resource_efficiency_weight * resource_efficiency

/-- The `ADMISSION_BID` message sent at the top of
`evaluate_patient_admission`. -/
def bid_message (h : Hospital) (p : Patient) (required_resources : ℚ) :
    Message :=
  ⟨.hospital h.unique_id, .coordinator,
    .admissionBid p.unique_id required_resources h.specialization,
    .ADMISSION_BID⟩

/-- `HospitalAgent.evaluate_patient_admission`: sends the bid message,
then rejects on insufficient resources, otherwise admits when the score
exceeds the fixed threshold `0.5`.  Returns the (unchanged) hospital, the
optional bid score, and the coordinator's log. -/
def evaluate_patient_admission (h : Hospital) (p : Patient)
    (required_resources : ℚ) (coordLog : List Message) :
    Hospital × Option ℚ × List Message :=
  let coordLog := send_message coordLog (bid_message h p required_resources)
  if h.current_resources < required_resources then
    (h, none, coordLog)
  else
    let match_score := calculate_admission_score h p required_resources
    let admission_threshold : ℚ := 0.5
    (h, if admission_threshold < match_score then some match_score else none,
      coordLog)

/-- The `RESOURCE_ALLOCATED` confirmation message sent by
`HospitalAgent.allocate_resources`. -/
def allocated_message (h : Hospital) (p : Patient)
    (required_resources : ℚ) : Message :=
  ⟨.hospital h.unique_id, .patient p.unique_id,
    .resourceAllocated required_resources h.unique_id, .RESOURCE_ALLOCATED⟩

/-- `HospitalAgent.allocate_resources` (the commit): re-checks the balance
against `patient.medical_needs`, debits on success and confirms by
message; otherwise no mutation and no message. -/
def Hospital.allocate_resources (h : Hospital) (p : Patient)
    (_allocation_score : ℚ) (coordLog : List Message) :
    Hospital × Bool × List Message :=
  let required_resources := p.medical_needs
  if required_resources ≤ h.current_resources then
    ({h with current_resources := h.current_resources - required_resources},
      true,
      send_message coordLog (allocated_message h p required_resources))
  else
    (h, false, coordLog)

/-- `HospitalAgent.process_resources`: replenishment
`min(current * 1.1, initial * 1.5)`. -/
def process_resources (h : Hospital) : Hospital :=
  let max_growth_factor : ℚ := 1.5
  let replenishment_rate : ℚ := 1.1
  { h with
      current_resources := min (h.current_resources * replenishment_rate)
        (h.initial_resources * max_growth_factor) }

/-! ## Patient agent: demand generation -/

/-- The severity-keyed demand ranges of `generate_medical_needs`
(`.get` default `(10, 50)`). -/
def severity_resource_ranges (severity : String) : Nat × Nat :=
  if severity = "low" then (5, 20)
  else if severity = "medium" then (20, 100)
  else if severity = "high" then (100, 200)
  else (10, 50)

/-- Model of `random.randint lo hi`: a uniform draw from the inclusive
range `[lo, hi]`, obtained by reducing an arbitrary draw modulo the range
size. -/
def randint (lo hi draw : Nat) : Nat :=
  lo + draw % (hi + 1 - lo)

/-! ## Resource coordinator -/

/-- Strategy weight `priority_factors['patient_severity']`
(`develop_allocation_strategy`). -/
def priority_patient_severity : ℚ := 0.4

/-- Strategy weight `priority_factors['hospital_capacity']`. -/
def priority_hospital_capacity : ℚ := 0.3

/-- Strategy weight `priority_factors['resource_efficiency']`. -/
def priority_resource_efficiency : ℚ := 0.3

/-- `ResourceCoordinatorAgent.severity_score`: the dictionary lookup with
default `0.5`. -/
def severity_score (severity : String) : ℚ :=
  if severity = "low" then 0.2
  else if severity = "medium" then 0.5
  else if severity = "high" then 1.0
  else 0.5

/-- `ResourceCoordinatorAgent.capacity_score`. -/
def capacity_score (h : Hospital) : ℚ :=
  min (h.current_resources / h.initial_resources) 1.0

/-- `ResourceCoordinatorAgent.evaluate_bid`. -/
def evaluate_bid (h : Hospital) (bid_value : ℚ) (p : Patient) : ℚ :=
  priority_patient_severity * severity_score p.severity +
    priority_hospital_capacity * capacity_score h +
    priority_resource_efficiency * bid_value

/-- Stable descending insertion: the new element goes before the first
element whose key is not larger (so earlier list elements win ties, as
Python's stable `sorted(..., reverse=True)` does). -/
def insertDesc {α : Type} (key : α → ℚ) (a : α) : List α → List α
  | [] => [a]
  | b :: l => if key b ≤ key a then a :: b :: l else b :: insertDesc key a l

/-- Stable descending sort, modelling `sorted(..., key=..., reverse=True)`. -/
def sortDesc {α : Type} (key : α → ℚ) : List α → List α
  | [] => []
  | a :: l => insertDesc key a (sortDesc key l)

/-- Stable ascending insertion, modelling `sorted(..., key=...)`. -/
def insertAsc {α : Type} (key : α → ℚ) (a : α) : List α → List α
  | [] => [a]
  | b :: l => if key a ≤ key b then a :: b :: l else b :: insertAsc key a l

/-- Stable ascending sort, modelling `sorted(..., key=...)`. -/
def sortAsc {α : Type} (key : α → ℚ) : List α → List α
  | [] => []
  | a :: l => insertAsc key a (sortAsc key l)

/-- The hospital stored at index `i` of the registry (hospitals are
referred to by their position in `model.hospitals`). -/
def hospAt : List Hospital → Nat → Hospital
  | [], _ => default
  | h :: _, 0 => h
  | _ :: t, Nat.succ i => hospAt t i

/-- The `RESOURCE_UNAVAILABLE` broadcast of
`ResourceCoordinatorAgent.allocate_resources` on an empty bid list. -/
def unavailable_message (p : Patient) : Message :=
  ⟨.coordinator, .broadcast, .unavailableText p.unique_id,
    .RESOURCE_UNAVAILABLE⟩

/-- The `RESOURCE_ALLOCATION` message to the selected hospital. -/
def allocation_message (p : Patient) (h : Hospital) (bid_value : ℚ) :
    Message :=
  ⟨.coordinator, .hospital h.unique_id,
    .resourceAllocation p.unique_id p.medical_needs bid_value,
    .RESOURCE_ALLOCATION⟩

/-- The `ALLOCATION_RESULT` message back to the patient. -/
def result_message (p : Patient) (allocation_success : Bool)
    (h : Hospital) : Message :=
  ⟨.coordinator, .patient p.unique_id,
    .allocationResult allocation_success h.unique_id, .ALLOCATION_RESULT⟩

/-- The ranking key used to sort bids, `evaluate_bid` applied to a
(bidding hospital index, bid value) pair. -/
def bid_rank (hs : List Hospital) (p : Patient) (ib : Nat × ℚ) : ℚ :=
  evaluate_bid (hospAt hs ib.1) ib.2 p

/-- `ResourceCoordinatorAgent.allocate_resources`: broadcast-and-fail on
an empty bid list, otherwise sort descending by `evaluate_bid`, commit on
the top hospital and report the outcome.  Bids carry the index of the
bidding hospital in the registry. -/
def coordinator_allocate (hs : List Hospital) (p : Patient)
    (hospital_bids : List (Nat × ℚ)) (coordLog : List Message) :
    List Hospital × Option Bool × List Message :=
  match hospital_bids with
  | [] => (hs, none, send_message coordLog (unavailable_message p))
  | b :: bs =>
    let sorted_bids := sortDesc (bid_rank hs p) (b :: bs)
    let best := sorted_bids.headD b
    let best_hospital := hospAt hs best.1
    let coordLog := send_message coordLog
      (allocation_message p best_hospital best.2)
    let r := best_hospital.allocate_resources p best.2 coordLog
    let coordLog := send_message r.2.2 (result_message p r.2.1 best_hospital)
    (hs.set best.1 r.1, some r.2.1, coordLog)

/-- The bid-collection loop of
`ResourceAllocationEnvironment.negotiate_resource_allocation`: poll every
hospital in registry order, keep the non-`None` bids (tagged with the
hospital's index), thread the coordinator log. -/
def collect_bids (p : Patient) (required_resources : ℚ) :
    List Hospital → Nat → List Message →
      List Hospital × List (Nat × ℚ) × List Message
  | [], _, coordLog => ([], [], coordLog)
  | h :: t, i, coordLog =>
    let r := evaluate_patient_admission h p required_resources coordLog
    let rest := collect_bids p required_resources t (i + 1) r.2.2
    (r.1 :: rest.1,
      (match r.2.1 with
       | some bid => (i, bid) :: rest.2.1
       | none => rest.2.1),
      rest.2.2)

/-- `ResourceAllocationEnvironment.negotiate_resource_allocation`. -/
def negotiate_resource_allocation (hs : List Hospital) (p : Patient)
    (required_resources : ℚ) (coordLog : List Message) :
    List Hospital × Option Bool × List Message :=
  let c := collect_bids p required_resources hs 0 coordLog
  coordinator_allocate c.1 p c.2.1 c.2.2

/-- The `MEDICAL_NEEDS` message sent by `generate_medical_needs`. -/
def needs_message (p : Patient) : Message :=
  ⟨.patient p.unique_id, .coordinator,
    .medicalNeeds p.medical_needs p.severity, .MEDICAL_NEEDS⟩

/-- The tail of `PatientAgent.generate_medical_needs`: unmet needs equal
the generated demand unless the negotiation outcome is truthy (`True`). -/
def update_unmet (p : Patient) (allocation_result : Option Bool) : Patient :=
  { p with
      unmet_needs :=
        if allocation_result = some true then 0 else p.medical_needs }

/-- `PatientAgent.generate_medical_needs`: draw the demand from the
severity-keyed range, message the coordinator, negotiate, record unmet
demand. -/
def generate_medical_needs (hs : List Hospital) (p : Patient) (draw : Nat)
    (coordLog : List Message) : List Hospital × Patient × List Message :=
  let r := severity_resource_ranges p.severity
  let p1 := { p with medical_needs := ((randint r.1 r.2 draw : Nat) : ℚ) }
  let coordLog := send_message coordLog (needs_message p1)
  let n := negotiate_resource_allocation hs p1 p1.medical_needs coordLog
  (n.1, update_unmet p1 n.2.1, n.2.2)

/-! ## Global rebalancing -/

/-- The `RESOURCE_TRANSFER` message of `coordinate_global_resources`. -/
def transfer_message (source target : Hospital) (transfer_amount : ℚ) :
    Message :=
  ⟨.hospital source.unique_id, .hospital target.unique_id,
    .resourceTransfer transfer_amount source.unique_id target.unique_id,
    .RESOURCE_TRANSFER⟩

/-- Add `d` to the balance of the hospital at index `i` (in-place object
mutation in the source, an index update here). -/
def addBal : Nat → ℚ → List Hospital → List Hospital
  | _, _, [] => []
  | 0, d, h :: t =>
    { h with current_resources := h.current_resources + d } :: t
  | Nat.succ i, d, h :: t => h :: addBal i d t

/-- The transfer amount for a (source, target) index pair, read from the
live balances: `min(source.current * 0.1,
target.initial * 0.2 - target.current)`. -/
def transfer_amount_calc (hs : List Hospital) (si ti : Nat) : ℚ :=
  min ((hospAt hs si).current_resources * 0.1)
    ((hospAt hs ti).initial_resources * 0.2 - (hospAt hs ti).current_resources)

/-- One iteration of the nested transfer loop: if the computed amount is
positive, log the transfer, debit the source and credit the target. -/
def rebalance_pair (st : List Hospital × List Message) (si ti : Nat) :
    List Hospital × List Message :=
  let amt := transfer_amount_calc st.1 si ti
  if 0 < amt then
    (addBal ti amt (addBal si (-amt) st.1),
      send_message st.2 (transfer_message (hospAt st.1 si) (hospAt st.1 ti) amt))
  else st

/-- `ResourceCoordinatorAgent.coordinate_global_resources`: pick the
high-capacity (`> 1.2 × initial`) and low-capacity (`< 0.8 × initial`)
hospitals from the pre-pass balances, sort them descending resp.
ascending by balance, and run the nested transfer loop. -/
def coordinate_global_resources (hs : List Hospital)
    (coordLog : List Message) : List Hospital × List Message :=
  let idx := List.range hs.length
  let high_capacity := sortDesc (fun i => (hospAt hs i).current_resources)
    (idx.filter
      (fun i => (hospAt hs i).initial_resources * 1.2 < (hospAt hs i).current_resources))
  let low_capacity := sortAsc (fun i => (hospAt hs i).current_resources)
    (idx.filter
      (fun i => (hospAt hs i).current_resources < (hospAt hs i).initial_resources * 0.8))
  high_capacity.foldl
    (fun st si => low_capacity.foldl (fun st ti => rebalance_pair st si ti) st)
    (hs, coordLog)

/-! ## Environment: metrics and step driver -/

/-- `ResourceAllocationEnvironment.update_performance_metrics`: returns
(total unmet needs, resource allocation efficiency). -/
def update_performance_metrics (hs : List Hospital) (ps : List Patient) :
    ℚ × ℚ :=
  let unmet_needs := (ps.map Patient.unmet_needs).sum
  let total_resources := (hs.map Hospital.current_resources).sum
  (unmet_needs, (total_resources - unmet_needs) / (total_resources + 1))

/-- The whole mutable state of the environment that the core operations
touch: agent registries, the coordinator's log, the (unused) global log,
and the aggregate metrics. -/
structure SystemState where
  hospitals : List Hospital
  patients : List Patient
  coordinator_log : List Message
  global_log : List Message
  total_unmet_needs : ℚ
  resource_allocation_efficiency : ℚ
  deriving Repr, DecidableEq

/-- The per-patient phase of `step`: each patient in order runs
`generate_medical_needs` with its own random draw. -/
def patients_phase : List Patient → List Nat → List Hospital →
    List Message → List Hospital × List Patient × List Message
  | [], _, hs, coordLog => (hs, [], coordLog)
  | p :: ps, draws, hs, coordLog =>
    let g := generate_medical_needs hs p (draws.headD 0) coordLog
    let rest := patients_phase ps draws.tail g.1 g.2.2
    (rest.1, g.2.1 :: rest.2.1, rest.2.2)

/-- `ResourceAllocationEnvironment.step`: patient demand generation, then
hospital replenishment, then global rebalancing, then the metrics
update.  The global message manager is never written to by any of these
operations. -/
def model_step (s : SystemState) (draws : List Nat) : SystemState :=
  let ph := patients_phase s.patients draws s.hospitals s.coordinator_log
  let hs2 := ph.1.map process_resources
  let co := coordinate_global_resources hs2 ph.2.2
  let m := update_performance_metrics co.1 ph.2.1
  { hospitals := co.1
    patients := ph.2.1
    coordinator_log := co.2
    global_log := s.global_log
    total_unmet_needs := m.1
    resource_allocation_efficiency := m.2 }

/-- `ResourceAllocationEnvironment.__init__`: hospitals start at the
initial capacity, patients with zero needs, both message logs empty.
Specializations and severities are drawn externally (`random.choice`). -/
def init_system (num_hospitals num_patients : Nat) (initial_resources : ℚ)
    (specs sevs : Nat → String) : SystemState :=
  { hospitals := (List.range num_hospitals).map
      (fun i => ⟨i + 2, specs i, initial_resources, initial_resources⟩)
    patients := (List.range num_patients).map
      (fun i => ⟨num_hospitals + 2 + i, sevs i, 0, 0⟩)
    coordinator_log := []
    global_log := []
    total_unmet_needs := 0
    resource_allocation_efficiency := 0 }

/-- Run a sequence of steps, one draw list per step. -/
def run_steps (s : SystemState) : List (List Nat) → SystemState
  | [] => s
  | d :: ds => run_steps (model_step s d) ds

/-! ## Concrete sample agents for witnesses -/

/-- A sample hospital at full capacity. -/
def hW : Hospital := ⟨2, "general", 1000, 1000⟩

/-- A sample medium-severity patient demanding 40 units. -/
def pW : Patient := ⟨8, "medium", 40, 0⟩

/-- A sample hospital whose balance exceeds the replenishment growth cap. -/
def hOver : Hospital := ⟨3, "surgical", 1000, 2000⟩

/-- A sample small hospital, balance 100. -/
def hSmall : Hospital := ⟨4, "emergency", 100, 100⟩

/-- A second sample small hospital, balance 100. -/
def hSmall2 : Hospital := ⟨5, "pediatric", 100, 100⟩

/-- A sample high-severity patient demanding 150 units. -/
def pHigh : Patient := ⟨9, "high", 150, 0⟩

/-! ## Claim theorems -/

/-- **C2.** The commit (`HospitalAgent.allocate_resources`) re-checks
`current_resources >= patient.medical_needs`; when the check passes it
debits the balance by exactly the demand, emits a `RESOURCE_ALLOCATED`
message to the coordinator's log and returns `true`; when it fails it
returns `false`, leaves the hospital entirely unchanged and emits no
message. -/
theorem C2_commit (h : Hospital) (p : Patient) (allocation_score : ℚ)
    (log : List Message) :
    (p.medical_needs ≤ h.current_resources →
      h.allocate_resources p allocation_score log =
        ({ h with current_resources := h.current_resources - p.medical_needs },
          true, log ++ [allocated_message h p p.medical_needs]))
    ∧ (h.current_resources < p.medical_needs →
      h.allocate_resources p allocation_score log = (h, false, log)) := by
  constructor
  · intro hle
    unfold Hospital.allocate_resources
    rw [if_pos hle]
    rfl
  · intro hlt
    unfold Hospital.allocate_resources
    rw [if_neg (not_le.mpr hlt)]

/-- **C2 witness** at `hW`, `pW` (demand 40 against balance 1000). -/
theorem C2_commit_witness :
    pW.medical_needs ≤ hW.current_resources ∧
    hW.allocate_resources pW (7/10) [] =
      ({ hW with current_resources := hW.current_resources - pW.medical_needs },
        true, [] ++ [allocated_message hW pW pW.medical_needs]) :=
  ⟨by norm_num [hW, pW], (C2_commit hW pW (7/10) []).1 (by norm_num [hW, pW])⟩

/-- **C3.** A quote (`evaluate_patient_admission`) never mutates the
hospital, always appends exactly one `ADMISSION_BID` message to the
coordinator's log, rejects (`none`) whenever the balance is below the
demand, and otherwise scores
`0.4 * 1.0 + 0.6 * (1 - demand / balance)` (specialization match is the
always-compatible default), rejecting when the score is `<= 0.5` and
returning the score as the bid when it exceeds `0.5`. -/
theorem C3_quote (h : Hospital) (p : Patient) (required_resources : ℚ)
    (log : List Message) :
    (evaluate_patient_admission h p required_resources log).1 = h
    ∧ (evaluate_patient_admission h p required_resources log).2.2 =
        log ++ [bid_message h p required_resources]
    ∧ (h.current_resources < required_resources →
        (evaluate_patient_admission h p required_resources log).2.1 = none)
    ∧ (required_resources ≤ h.current_resources → 0 < required_resources →
        calculate_admission_score h p required_resources =
          0.4 * 1.0 + 0.6 * (1 - required_resources / h.current_resources)
        ∧ (calculate_admission_score h p required_resources ≤ 0.5 →
            (evaluate_patient_admission h p required_resources log).2.1 = none)
        ∧ (0.5 < calculate_admission_score h p required_resources →
            (evaluate_patient_admission h p required_resources log).2.1 =
              some (calculate_admission_score h p required_resources))) := by
  refine ⟨?_, ?_, ?_, ?_⟩
  · unfold evaluate_patient_admission
    split
    · rfl
    · rfl
  · unfold evaluate_patient_admission
    split
    · rfl
    · rfl
  · intro hlt
    unfold evaluate_patient_admission
    rw [if_pos hlt]
  · intro hle _hpos
    refine ⟨rfl, ?_, ?_⟩
    · intro hsc
      unfold evaluate_patient_admission
      rw [if_neg (not_lt.mpr hle)]
      dsimp only
      rw [if_neg (not_lt.mpr hsc)]
    · intro hsc
      unfold evaluate_patient_admission
      rw [if_neg (not_lt.mpr hle)]
      dsimp only
      rw [if_pos hsc]

/-- **C3 witness** at `hW`, `pW`: demand 40 on balance 1000 yields the
bid `0.976` and the bid message. -/
theorem C3_quote_witness :
    (40 : ℚ) ≤ hW.current_resources ∧ (0 : ℚ) < 40 ∧
    (0.5 < calculate_admission_score hW pW 40 →
      (evaluate_patient_admission hW pW 40 []).2.1 =
        some (calculate_admission_score hW pW 40)) :=
  ⟨by norm_num [hW], by norm_num,
    ((C3_quote hW pW 40 []).2.2.2 (by norm_num [hW]) (by norm_num)).2.2⟩

/-- **C7 counterexample.** Replenishment can strictly decrease a
nonnegative balance: a hospital with capacity 1000 and balance 2000 is
clipped to the growth cap 1500 by `process_resources`. -/
theorem C7_counterexample :
    0 ≤ hOver.current_resources ∧
    (process_resources hOver).current_resources < hOver.current_resources := by
  constructor
  · norm_num [hOver]
  · norm_num [process_resources, hOver, min_def]

/-- **C7 (amended).** For every hospital whose balance is nonnegative and
at most the growth cap `initial_resources * 1.5` (which holds in every
reachable state), `process_resources` never decreases the balance. -/
theorem C7_replenish_mono (h : Hospital)
    (hnn : 0 ≤ h.current_resources)
    (hcap : h.current_resources ≤ h.initial_resources * 1.5) :
    h.current_resources ≤ (process_resources h).current_resources := by
  unfold process_resources
  refine le_min ?_ hcap
  nlinarith

/-- **C7 witness** at `hW` (balance 1000, capacity 1000). -/
theorem C7_replenish_mono_witness :
    (0 ≤ hW.current_resources ∧
      hW.current_resources ≤ hW.initial_resources * 1.5) ∧
    hW.current_resources ≤ (process_resources hW).current_resources :=
  ⟨⟨by norm_num [hW], by norm_num [hW]⟩,
    C7_replenish_mono hW (by norm_num [hW]) (by norm_num [hW])⟩

/-- **C8 counterexample.** The generated demand can equal the upper
endpoint of the severity range: for severity `"low"` (range `(5, 20)`)
the draw 15 generates demand exactly 20, refuting the claimed strict
upper bound. -/
theorem C8_counterexample :
    randint (severity_resource_ranges "low").1
        (severity_resource_ranges "low").2 15 = 20 ∧
    ¬ (randint (severity_resource_ranges "low").1
        (severity_resource_ranges "low").2 15 < 20) := by
  constructor
  · decide
  · decide

/-- `randint lo hi` lands in the inclusive range `[lo, hi]` when
`lo ≤ hi`. -/
theorem randint_mem (lo hi draw : Nat) (hle : lo ≤ hi) :
    lo ≤ randint lo hi draw ∧ randint lo hi draw ≤ hi := by
  unfold randint
  constructor
  · omega
  · have hm : draw % (hi + 1 - lo) < hi + 1 - lo :=
      Nat.mod_lt draw (by omega)
    omega

/-- **C8 (amended).** For every severity and every draw, the generated
demand (`randint` over `severity_resource_ranges`) lies in the *closed*
severity-keyed range: `[5, 20]` for low, `[20, 100]` for medium,
`[100, 200]` for high (`random.randint` includes both endpoints); the
patient produced by `generate_medical_needs` carries exactly that
demand. -/
theorem C8_demand_range (severity : String) (draw : Nat)
    (hs : List Hospital) (p : Patient) (log : List Message) :
    ((severity_resource_ranges severity).1 ≤
        randint (severity_resource_ranges severity).1
          (severity_resource_ranges severity).2 draw
      ∧ randint (severity_resource_ranges severity).1
          (severity_resource_ranges severity).2 draw ≤
        (severity_resource_ranges severity).2)
    ∧ (generate_medical_needs hs p draw log).2.1.medical_needs =
        ((randint (severity_resource_ranges p.severity).1
          (severity_resource_ranges p.severity).2 draw : Nat) : ℚ) := by
  constructor
  · apply randint_mem
    unfold severity_resource_ranges
    split
    · omega
    · split
      · omega
      · split
        · omega
        · omega
  · rfl

/-- The head of the stable descending sort of a nonempty list is its
first element of maximal key: it attains the maximum, and everything
before it in the original list has a strictly smaller key. -/
theorem sortDesc_head_spec {α : Type} (key : α → ℚ) (a : α) (l : List α) :
    ∃ w s, sortDesc key (a :: l) = w :: s ∧ w ∈ a :: l
      ∧ (∀ x ∈ a :: l, key x ≤ key w)
      ∧ ∃ pre post, a :: l = pre ++ w :: post ∧ ∀ x ∈ pre, key x < key w := by
  induction l generalizing a with
  | nil =>
    refine ⟨a, [], rfl, List.mem_singleton.mpr rfl, ?_, [], [], rfl, ?_⟩
    · intro x hx
      rw [List.mem_singleton] at hx
      exact le_of_eq (congrArg key hx)
    · intro x hx
      exact absurd hx (List.not_mem_nil x)
  | cons b t ih =>
    obtain ⟨w, s, hsort, hmem, hmax, pre, post, hdec, hpre⟩ := ih b
    show ∃ w' s', insertDesc key a (sortDesc key (b :: t)) = w' :: s' ∧ _
    rw [hsort]
    unfold insertDesc
    by_cases hcmp : key w ≤ key a
    · rw [if_pos hcmp]
      refine ⟨a, w :: s, rfl, List.mem_cons_self a _, ?_, [], b :: t, rfl, ?_⟩
      · intro x hx
        rcases List.mem_cons.mp hx with hxa | hxl
        · exact le_of_eq (congrArg key hxa)
        · exact le_trans (hmax x hxl) hcmp
      · intro x hx
        exact absurd hx (List.not_mem_nil x)
    · rw [if_neg hcmp]
      have haw : key a < key w := lt_of_not_le hcmp
      refine ⟨w, insertDesc key a s, rfl, List.mem_cons_of_mem a hmem, ?_,
        a :: pre, post, ?_, ?_⟩
      · intro x hx
        rcases List.mem_cons.mp hx with hxa | hxl
        · exact le_of_lt (hxa ▸ haw)
        · exact hmax x hxl
      · rw [List.cons_append, hdec]
      · intro x hx
        rcases List.mem_cons.mp hx with hxa | hxp
        · exact hxa ▸ haw
        · exact hpre x hxp

/-- **C4.** For a nonempty bid list the coordinator's selection — the
head of the stable descending sort by `evaluate_bid` — is the bid of
maximal rank
`0.4 * severity_score + 0.3 * min(balance/capacity, 1) + 0.3 * bid`,
with `severity_score` mapping low/medium/high to `0.2`/`0.5`/`1.0`; on
equal ranks the bid polled earlier wins: every bid listed before the
winner has strictly smaller rank. -/
theorem C4_winner (hs : List Hospital) (p : Patient) (b : Nat × ℚ)
    (bids : List (Nat × ℚ)) :
    severity_score "low" = 0.2 ∧ severity_score "medium" = 0.5 ∧
    severity_score "high" = 1.0 ∧
    (∀ h bid_value, evaluate_bid h bid_value p =
      0.4 * severity_score p.severity +
        0.3 * min (h.current_resources / h.initial_resources) 1.0 +
        0.3 * bid_value) ∧
    ∃ w, (sortDesc (bid_rank hs p) (b :: bids)).headD b = w
      ∧ w ∈ b :: bids
      ∧ (∀ x ∈ b :: bids, bid_rank hs p x ≤ bid_rank hs p w)
      ∧ ∃ pre post, b :: bids = pre ++ w :: post
          ∧ ∀ x ∈ pre, bid_rank hs p x < bid_rank hs p w := by
  refine ⟨rfl, rfl, rfl, fun h bid_value => rfl, ?_⟩
  obtain ⟨w, s, hsort, hmem, hmax, pre, post, hdec, hpre⟩ :=
    sortDesc_head_spec (bid_rank hs p) b bids
  exact ⟨w, by rw [hsort]; rfl, hmem, hmax, pre, post, hdec, hpre⟩

/-- A quote against a balance below the demand: bid message sent,
rejection returned, hospital untouched. -/
theorem evaluate_reject (h : Hospital) (p : Patient)
    (required_resources : ℚ) (log : List Message)
    (hlt : h.current_resources < required_resources) :
    evaluate_patient_admission h p required_resources log =
      (h, none, log ++ [bid_message h p required_resources]) := by
  unfold evaluate_patient_admission
  rw [if_pos hlt]
  rfl

/-- When every hospital's balance is below the demand, the collection
loop returns no bids, leaves every hospital unchanged, and appends one
bid message per hospital in registry order. -/
theorem collect_bids_all_reject (p : Patient) (required_resources : ℚ)
    (hs : List Hospital) :
    ∀ (i : Nat) (log : List Message),
      (∀ h ∈ hs, h.current_resources < required_resources) →
      collect_bids p required_resources hs i log =
        (hs, [],
          log ++ hs.map (fun h => bid_message h p required_resources)) := by
  induction hs with
  | nil =>
    intro i log _
    simp [collect_bids]
  | cons h t ih =>
    intro i log hall
    have hh := hall h (List.mem_cons_self h t)
    have ht : ∀ x ∈ t, x.current_resources < required_resources :=
      fun x hx => hall x (List.mem_cons_of_mem h hx)
    unfold collect_bids
    rw [evaluate_reject h p required_resources log hh]
    dsimp only
    rw [ih (i + 1) (log ++ [bid_message h p required_resources]) ht]
    simp

/-- **C5.** If every hospital's balance is strictly below the patient's
demand, every quote is rejected (the bid list is empty), the negotiation
fails (`none`) after appending one bid message per hospital and then the
`RESOURCE_UNAVAILABLE` broadcast, no hospital changes, and the patient's
unmet needs are set to the full demand. -/
theorem C5_no_bids (hs : List Hospital) (p : Patient) (log : List Message)
    (hall : ∀ h ∈ hs, h.current_resources < p.medical_needs) :
    (collect_bids p p.medical_needs hs 0 log).2.1 = []
    ∧ negotiate_resource_allocation hs p p.medical_needs log =
        (hs, none,
          (log ++ hs.map (fun h => bid_message h p p.medical_needs)) ++
            [unavailable_message p])
    ∧ (update_unmet p
        (negotiate_resource_allocation hs p p.medical_needs log).2.1).unmet_needs
        = p.medical_needs := by
  have hc := collect_bids_all_reject p p.medical_needs hs 0 log hall
  have hneg : negotiate_resource_allocation hs p p.medical_needs log =
      (hs, none,
        (log ++ hs.map (fun h => bid_message h p p.medical_needs)) ++
          [unavailable_message p]) := by
    unfold negotiate_resource_allocation
    rw [hc]
    rfl
  refine ⟨by rw [hc], hneg, ?_⟩
  rw [hneg]
  simp [update_unmet]

/-- **C5 witness**: two hospitals with balance 100 each, a high-severity
patient demanding 150. -/
theorem C5_no_bids_witness :
    (∀ h ∈ [hSmall, hSmall2], h.current_resources < pHigh.medical_needs) ∧
    negotiate_resource_allocation [hSmall, hSmall2] pHigh
        pHigh.medical_needs [] =
      ([hSmall, hSmall2], none,
        ([] ++ [hSmall, hSmall2].map
          (fun h => bid_message h pHigh pHigh.medical_needs)) ++
          [unavailable_message pHigh]) :=
  ⟨by norm_num [hSmall, hSmall2, pHigh],
    (C5_no_bids [hSmall, hSmall2] pHigh []
      (by norm_num [hSmall, hSmall2, pHigh])).2.1⟩

/-- A fold preserves any invariant its step preserves on the list's
elements. -/
theorem foldl_preserve {α σ : Type} (f : σ → α → σ) (P : σ → Prop) :
    ∀ (l : List α) (s : σ), (∀ a ∈ l, ∀ st, P st → P (f st a)) → P s →
      P (l.foldl f s) := by
  intro l
  induction l with
  | nil => intro s _ hsP; exact hsP
  | cons a t ih =>
    intro s hstep hsP
    exact ih (f s a)
      (fun x hx st hst => hstep x (List.mem_cons_of_mem a hx) st hst)
      (hstep a (List.mem_cons_self a t) s hsP)

/-- `addBal` preserves the length of the registry. -/
theorem addBal_length (i : Nat) (d : ℚ) (hs : List Hospital) :
    (addBal i d hs).length = hs.length := by
  induction hs generalizing i with
  | nil => cases i <;> rfl
  | cons h t ih =>
    cases i with
    | zero => rfl
    | succ j => simpa [addBal] using ih j

/-- Crediting `d` at a valid index adds exactly `d` to the total
balance. -/
theorem addBal_sum (i : Nat) (d : ℚ) (hs : List Hospital)
    (hi : i < hs.length) :
    ((addBal i d hs).map Hospital.current_resources).sum =
      (hs.map Hospital.current_resources).sum + d := by
  induction hs generalizing i with
  | nil => simp at hi
  | cons h t ih =>
    cases i with
    | zero =>
      simp [addBal]
      ring
    | succ j =>
      have hj : j < t.length := by simpa using hi
      simp [addBal, ih j hj]
      ring

/-- Membership is preserved by descending insertion. -/
theorem mem_insertDesc {α : Type} (key : α → ℚ) (a x : α) :
    ∀ l : List α, x ∈ insertDesc key a l → x = a ∨ x ∈ l := by
  intro l
  induction l with
  | nil =>
    intro hx
    exact Or.inl (List.mem_singleton.mp hx)
  | cons b t ih =>
    intro hx
    unfold insertDesc at hx
    split at hx
    · rcases List.mem_cons.mp hx with h1 | h2
      · exact Or.inl h1
      · exact Or.inr h2
    · rcases List.mem_cons.mp hx with h1 | h2
      · exact Or.inr (h1 ▸ List.mem_cons_self b t)
      · rcases ih h2 with h3 | h4
        · exact Or.inl h3
        · exact Or.inr (List.mem_cons_of_mem b h4)

/-- Membership is preserved by the descending sort. -/
theorem mem_sortDesc {α : Type} (key : α → ℚ) (x : α) :
    ∀ l : List α, x ∈ sortDesc key l → x ∈ l := by
  intro l
  induction l with
  | nil => intro hx; exact absurd hx (List.not_mem_nil x)
  | cons a t ih =>
    intro hx
    rcases mem_insertDesc key a x (sortDesc key t) hx with h1 | h2
    · exact h1 ▸ List.mem_cons_self a t
    · exact List.mem_cons_of_mem a (ih h2)

/-- Membership is preserved by ascending insertion. -/
theorem mem_insertAsc {α : Type} (key : α → ℚ) (a x : α) :
    ∀ l : List α, x ∈ insertAsc key a l → x = a ∨ x ∈ l := by
  intro l
  induction l with
  | nil =>
    intro hx
    exact Or.inl (List.mem_singleton.mp hx)
  | cons b t ih =>
    intro hx
    unfold insertAsc at hx
    split at hx
    · rcases List.mem_cons.mp hx with h1 | h2
      · exact Or.inl h1
      · exact Or.inr h2
    · rcases List.mem_cons.mp hx with h1 | h2
      · exact Or.inr (h1 ▸ List.mem_cons_self b t)
      · rcases ih h2 with h3 | h4
        · exact Or.inl h3
        · exact Or.inr (List.mem_cons_of_mem b h4)

/-- Membership is preserved by the ascending sort. -/
theorem mem_sortAsc {α : Type} (key : α → ℚ) (x : α) :
    ∀ l : List α, x ∈ sortAsc key l → x ∈ l := by
  intro l
  induction l with
  | nil => intro hx; exact absurd hx (List.not_mem_nil x)
  | cons a t ih =>
    intro hx
    rcases mem_insertAsc key a x (sortAsc key t) hx with h1 | h2
    · exact h1 ▸ List.mem_cons_self a t
    · exact List.mem_cons_of_mem a (ih h2)

/-- Indices produced by the surplus/deficit filters are valid registry
indices. -/
theorem mem_filter_range_lt (n : Nat) (pred : Nat → Bool) (i : Nat) :
    i ∈ (List.range n).filter pred → i < n := by
  intro hi
  exact List.mem_range.mp (List.mem_filter.mp hi).1

/-- One transfer iteration at valid indices preserves the total balance
and the registry length. -/
theorem rebalance_pair_sum (st : List Hospital × List Message)
    (si ti : Nat) (hsi : si < st.1.length) (hti : ti < st.1.length) :
    ((rebalance_pair st si ti).1.map Hospital.current_resources).sum =
      (st.1.map Hospital.current_resources).sum ∧
    (rebalance_pair st si ti).1.length = st.1.length := by
  unfold rebalance_pair
  dsimp only
  split
  · have hti' : ti < (addBal si (-(transfer_amount_calc st.1 si ti)) st.1).length := by
      rw [addBal_length]; exact hti
    constructor
    · rw [addBal_sum _ _ _ hti', addBal_sum _ _ _ hsi]
      ring
    · rw [addBal_length, addBal_length]
  · exact ⟨rfl, rfl⟩

/-- **C6.** A full rebalancing pass conserves the total system resource:
the sum of all balances after `coordinate_global_resources` equals the
sum before. -/
theorem C6_conservation (hs : List Hospital) (log : List Message) :
    ((coordinate_global_resources hs log).1.map
        Hospital.current_resources).sum =
      (hs.map Hospital.current_resources).sum := by
  unfold coordinate_global_resources
  dsimp only
  set P : List Hospital × List Message → Prop := fun st =>
    st.1.length = hs.length ∧
      (st.1.map Hospital.current_resources).sum =
        (hs.map Hospital.current_resources).sum with hP
  have hmain : P (List.foldl
      (fun st si => List.foldl (fun st ti => rebalance_pair st si ti) st
        (sortAsc (fun i => (hospAt hs i).current_resources)
          ((List.range hs.length).filter
            (fun i => decide ((hospAt hs i).current_resources <
              (hospAt hs i).initial_resources * 0.8)))))
      (hs, log)
      (sortDesc (fun i => (hospAt hs i).current_resources)
        ((List.range hs.length).filter
          (fun i => decide ((hospAt hs i).initial_resources * 1.2 <
            (hospAt hs i).current_resources))))) := by
    apply foldl_preserve
    · intro si hsi st hst
      apply foldl_preserve
      · intro ti hti st' hst'
        have hsi' : si < st'.1.length := by
          rw [hst'.1]
          exact mem_filter_range_lt _ _ si (mem_sortDesc _ si _ hsi)
        have hti' : ti < st'.1.length := by
          rw [hst'.1]
          exact mem_filter_range_lt _ _ ti (mem_sortAsc _ ti _ hti)
        obtain ⟨h1, h2⟩ := rebalance_pair_sum st' si ti hsi' hti'
        exact ⟨h2.trans hst'.1, h1.trans hst'.2⟩
      · exact hst
    · exact ⟨rfl, rfl⟩
  exact hmain.2

/-- If every hospital's balance is nonnegative, so is the balance read at
any index (out-of-range reads give the zero default). -/
theorem hospAt_nonneg (hs : List Hospital)
    (hQ : ∀ h ∈ hs, 0 ≤ h.current_resources) (i : Nat) :
    0 ≤ (hospAt hs i).current_resources := by
  induction hs generalizing i with
  | nil =>
    cases i <;> exact le_refl 0
  | cons h t ih =>
    cases i with
    | zero => exact hQ h (List.mem_cons_self h t)
    | succ j =>
      exact ih (fun x hx => hQ x (List.mem_cons_of_mem h hx)) j

/-- Adjusting the balance at index `i` keeps all balances nonnegative as
long as the adjusted balance stays nonnegative. -/
theorem addBal_nonneg (i : Nat) (d : ℚ) (hs : List Hospital)
    (hQ : ∀ h ∈ hs, 0 ≤ h.current_resources)
    (hi : 0 ≤ (hospAt hs i).current_resources + d) :
    ∀ x ∈ addBal i d hs, 0 ≤ x.current_resources := by
  induction hs generalizing i with
  | nil =>
    intro x hx
    cases i <;> exact absurd hx (List.not_mem_nil x)
  | cons h t ih =>
    intro x hx
    cases i with
    | zero =>
      rcases List.mem_cons.mp hx with h1 | h2
      · rw [h1]
        exact hi
      · exact hQ x (List.mem_cons_of_mem h h2)
    | succ j =>
      rcases List.mem_cons.mp hx with h1 | h2
      · exact h1 ▸ hQ h (List.mem_cons_self h t)
      · exact ih j (fun y hy => hQ y (List.mem_cons_of_mem h hy)) hi x h2

/-- One transfer iteration keeps every balance nonnegative: the amount is
capped at a tenth of the source's live balance, and the credit only grows
the target. -/
theorem rebalance_pair_nonneg (st : List Hospital × List Message)
    (si ti : Nat) (hQ : ∀ h ∈ st.1, 0 ≤ h.current_resources) :
    ∀ h ∈ (rebalance_pair st si ti).1, 0 ≤ h.current_resources := by
  unfold rebalance_pair
  dsimp only
  split
  · rename_i hamt
    have hsrc : 0 ≤ (hospAt st.1 si).current_resources :=
      hospAt_nonneg st.1 hQ si
    have hcap : transfer_amount_calc st.1 si ti ≤
        (hospAt st.1 si).current_resources * 0.1 := min_le_left _ _
    have hle : transfer_amount_calc st.1 si ti ≤
        (hospAt st.1 si).current_resources := by
      refine hcap.trans ?_
      nlinarith
    have h1 : ∀ x ∈ addBal si (-(transfer_amount_calc st.1 si ti)) st.1,
        0 ≤ x.current_resources := by
      apply addBal_nonneg _ _ _ hQ
      linarith
    apply addBal_nonneg _ _ _ h1
    have h2 : 0 ≤ (hospAt (addBal si (-(transfer_amount_calc st.1 si ti)) st.1)
        ti).current_resources := hospAt_nonneg _ h1 ti
    linarith
  · exact hQ

/-- **C1.** Every operation mutating a hospital balance keeps it
nonnegative, given that it starts nonnegative (a hospital is constructed
with `current_resources = initial_resources`, so the capacity is
nonnegative too): a quote leaves the balance untouched, a commit debits
only up to the checked balance, replenishment is a `min` of nonnegative
terms, and every rebalancing transfer debits at most a tenth of the live
source balance while only crediting targets. -/
theorem C1_balance_nonneg :
    (∀ (h : Hospital) (p : Patient) (required_resources : ℚ)
        (log : List Message), 0 ≤ h.current_resources →
        0 ≤ (evaluate_patient_admission h p
          required_resources log).1.current_resources)
    ∧ (∀ (h : Hospital) (p : Patient) (allocation_score : ℚ)
        (log : List Message), 0 ≤ h.current_resources →
        0 ≤ (h.allocate_resources p allocation_score log).1.current_resources)
    ∧ (∀ h : Hospital, 0 ≤ h.current_resources → 0 ≤ h.initial_resources →
        0 ≤ (process_resources h).current_resources)
    ∧ (∀ (hs : List Hospital) (log : List Message),
        (∀ h ∈ hs, 0 ≤ h.current_resources) →
        ∀ h ∈ (coordinate_global_resources hs log).1,
          0 ≤ h.current_resources) := by
  refine ⟨?_, ?_, ?_, ?_⟩
  · intro h p required_resources log hnn
    unfold evaluate_patient_admission
    split
    · exact hnn
    · exact hnn
  · intro h p allocation_score log hnn
    unfold Hospital.allocate_resources
    dsimp only
    split
    · rename_i hle
      simpa using sub_nonneg.mpr hle
    · exact hnn
  · intro h hnn hinit
    unfold process_resources
    exact le_min (mul_nonneg hnn (by norm_num)) (mul_nonneg hinit (by norm_num))
  · intro hs log hQ
    unfold coordinate_global_resources
    dsimp only
    apply foldl_preserve
      (P := fun st : List Hospital × List Message =>
        ∀ h ∈ st.1, 0 ≤ h.current_resources)
    · intro si _ st hst
      apply foldl_preserve
        (P := fun st : List Hospital × List Message =>
          ∀ h ∈ st.1, 0 ≤ h.current_resources)
      · intro ti _ st' hst'
        exact rebalance_pair_nonneg st' si ti hst'
      · exact hst
    · exact hQ

/-- **C1 witness**: a quote, a commit, a replenishment and a rebalancing
pass on concrete hospitals, all preserving nonnegativity. -/
theorem C1_balance_nonneg_witness :
    0 ≤ (evaluate_patient_admission hW pW 40 []).1.current_resources ∧
    0 ≤ (hW.allocate_resources pW (7/10) []).1.current_resources ∧
    0 ≤ (process_resources hW).current_resources ∧
    ∀ h ∈ (coordinate_global_resources [hOver, hSmall] []).1,
      0 ≤ h.current_resources :=
  ⟨C1_balance_nonneg.1 hW pW 40 [] (by norm_num [hW]),
    C1_balance_nonneg.2.1 hW pW (7/10) [] (by norm_num [hW]),
    C1_balance_nonneg.2.2.1 hW (by norm_num [hW]) (by norm_num [hW]),
    C1_balance_nonneg.2.2.2 [hOver, hSmall] []
      (by norm_num [hOver, hSmall])⟩

/-- **C9.** The metrics update computes the allocation efficiency as
`(total balance - total unmet) / (total balance + 1)`; with no hospitals
or a zero total balance the denominator is `1`, hence nonzero, and the
efficiency is the genuine quotient (multiplying back by the denominator
recovers the numerator), so no division by zero occurs. -/
theorem C9_efficiency (hs : List Hospital) (ps : List Patient)
    (hz : hs = [] ∨ (hs.map Hospital.current_resources).sum = 0) :
    (hs.map Hospital.current_resources).sum + 1 ≠ 0
    ∧ (update_performance_metrics hs ps).2 =
        ((hs.map Hospital.current_resources).sum -
            (ps.map Patient.unmet_needs).sum) /
          ((hs.map Hospital.current_resources).sum + 1)
    ∧ ((hs.map Hospital.current_resources).sum + 1) *
        (update_performance_metrics hs ps).2 =
        (hs.map Hospital.current_resources).sum -
          (ps.map Patient.unmet_needs).sum := by
  have htot : (hs.map Hospital.current_resources).sum = 0 := by
    rcases hz with hnil | hsum
    · rw [hnil]
      rfl
    · exact hsum
  refine ⟨by rw [htot]; norm_num, rfl, ?_⟩
  show ((hs.map Hospital.current_resources).sum + 1) *
      (((hs.map Hospital.current_resources).sum -
          (ps.map Patient.unmet_needs).sum) /
        ((hs.map Hospital.current_resources).sum + 1)) = _
  rw [htot]
  norm_num

/-- **C9 witness**: zero hospitals, one patient with unmet needs 40. -/
theorem C9_efficiency_witness :
    (([] : List Hospital) = [] ∨
      (([] : List Hospital).map Hospital.current_resources).sum = 0) ∧
    (([] : List Hospital).map Hospital.current_resources).sum + 1 ≠ 0 :=
  ⟨Or.inl rfl, (C9_efficiency [] [pW] (Or.inl rfl)).1⟩

/-- `new` is `old` with some messages appended: how every operation
treats the coordinator's log. -/
def extends_log (old new : List Message) : Prop := ∃ t, new = old ++ t

/-- Appending extends. -/
theorem extends_log_refl (a : List Message) : extends_log a a :=
  ⟨[], (List.append_nil a).symm⟩

/-- Extension is transitive. -/
theorem extends_log_trans {a b c : List Message} (h1 : extends_log a b)
    (h2 : extends_log b c) : extends_log a c := by
  obtain ⟨t, rfl⟩ := h1
  obtain ⟨u, rfl⟩ := h2
  exact ⟨t ++ u, List.append_assoc a t u⟩

/-- `send_message` extends the log. -/
theorem extends_log_send (a : List Message) (m : Message) :
    extends_log a (send_message a m) := ⟨[m], rfl⟩

/-- A quote only appends to the coordinator's log. -/
theorem evaluate_log_ext (h : Hospital) (p : Patient)
    (required_resources : ℚ) (log : List Message) :
    extends_log log
      (evaluate_patient_admission h p required_resources log).2.2 := by
  unfold evaluate_patient_admission
  split
  · exact extends_log_send log _
  · exact extends_log_send log _

/-- A commit only appends to the coordinator's log. -/
theorem allocate_log_ext (h : Hospital) (p : Patient)
    (allocation_score : ℚ) (log : List Message) :
    extends_log log (h.allocate_resources p allocation_score log).2.2 := by
  unfold Hospital.allocate_resources
  dsimp only
  split
  · exact extends_log_send log _
  · exact extends_log_refl log

/-- The bid-collection loop only appends to the coordinator's log. -/
theorem collect_log_ext (p : Patient) (required_resources : ℚ) :
    ∀ (hs : List Hospital) (i : Nat) (log : List Message),
      extends_log log (collect_bids p required_resources hs i log).2.2 := by
  intro hs
  induction hs with
  | nil => intro i log; exact extends_log_refl log
  | cons h t ih =>
    intro i log
    exact extends_log_trans (evaluate_log_ext h p required_resources log)
      (ih (i + 1) _)

/-- The coordinator's allocation only appends to its log. -/
theorem coordinator_log_ext (hs : List Hospital) (p : Patient)
    (hospital_bids : List (Nat × ℚ)) (log : List Message) :
    extends_log log (coordinator_allocate hs p hospital_bids log).2.2 := by
  unfold coordinator_allocate
  match hospital_bids with
  | [] => exact extends_log_send log _
  | b :: bs =>
    dsimp only
    exact extends_log_trans (extends_log_send log _)
      (extends_log_trans (allocate_log_ext _ p _ _) (extends_log_send _ _))

/-- A whole negotiation only appends to the coordinator's log. -/
theorem negotiate_log_ext (hs : List Hospital) (p : Patient)
    (required_resources : ℚ) (log : List Message) :
    extends_log log
      (negotiate_resource_allocation hs p required_resources log).2.2 :=
  extends_log_trans (collect_log_ext p required_resources hs 0 log)
    (coordinator_log_ext _ p _ _)

/-- Demand generation only appends to the coordinator's log. -/
theorem generate_log_ext (hs : List Hospital) (p : Patient) (draw : Nat)
    (log : List Message) :
    extends_log log (generate_medical_needs hs p draw log).2.2 :=
  extends_log_trans (extends_log_send log _) (negotiate_log_ext _ _ _ _)

/-- The per-patient phase only appends to the coordinator's log. -/
theorem patients_phase_log_ext :
    ∀ (ps : List Patient) (draws : List Nat) (hs : List Hospital)
      (log : List Message),
      extends_log log (patients_phase ps draws hs log).2.2 := by
  intro ps
  induction ps with
  | nil => intro draws hs log; exact extends_log_refl log
  | cons p t ih =>
    intro draws hs log
    exact extends_log_trans (generate_log_ext hs p (draws.headD 0) log)
      (ih draws.tail _ _)

/-- A transfer iteration only appends to the coordinator's log. -/
theorem rebalance_pair_log_ext (st : List Hospital × List Message)
    (si ti : Nat) : extends_log st.2 (rebalance_pair st si ti).2 := by
  unfold rebalance_pair
  dsimp only
  split
  · exact extends_log_send st.2 _
  · exact extends_log_refl st.2

/-- The rebalancing pass only appends to the coordinator's log. -/
theorem coordinate_log_ext (hs : List Hospital) (log : List Message) :
    extends_log log (coordinate_global_resources hs log).2 := by
  unfold coordinate_global_resources
  dsimp only
  apply foldl_preserve
    (P := fun st : List Hospital × List Message => extends_log log st.2)
  · intro si _ st hst
    apply foldl_preserve
      (P := fun st : List Hospital × List Message => extends_log log st.2)
    · intro ti _ st' hst'
      exact extends_log_trans hst' (rebalance_pair_log_ext st' si ti)
    · exact hst
  · exact extends_log_refl log

/-- **C10.** Every message emitted by the core operations goes to the
coordinator's own log — a step only ever appends to
`coordinator_log` — while the environment's global message manager is
never written: one step leaves `global_log` unchanged, and after any run
from a freshly constructed environment `global_log` is still empty. -/
theorem C10_global_log :
    (∀ (s : SystemState) (draws : List Nat),
        (model_step s draws).global_log = s.global_log
        ∧ extends_log s.coordinator_log (model_step s draws).coordinator_log)
    ∧ ∀ (num_hospitals num_patients : Nat) (initial_resources : ℚ)
        (specs sevs : Nat → String) (dss : List (List Nat)),
        (run_steps
          (init_system num_hospitals num_patients initial_resources specs
            sevs) dss).global_log = [] := by
  have hstep : ∀ (s : SystemState) (draws : List Nat),
      (model_step s draws).global_log = s.global_log := fun s draws => rfl
  have hrun : ∀ (dss : List (List Nat)) (s : SystemState),
      (run_steps s dss).global_log = s.global_log := by
    intro dss
    induction dss with
    | nil => intro s; rfl
    | cons d ds ih =>
      intro s
      show (run_steps (model_step s d) ds).global_log = s.global_log
      rw [ih (model_step s d), hstep s d]
  refine ⟨fun s draws => ⟨hstep s draws, ?_⟩, ?_⟩
  · show extends_log s.coordinator_log (model_step s draws).coordinator_log
    exact extends_log_trans
      (patients_phase_log_ext s.patients draws s.hospitals s.coordinator_log)
      (coordinate_log_ext _ _)
  · intro num_hospitals num_patients initial_resources specs sevs dss
    rw [hrun dss]
    rfl

end MASHealthcare
